import Mathlib

/-!
Verification of the langgraph-chatbot tutorial scripts.

The repository wires a chat model, an optional web-search tool and the
langgraph orchestration framework into three command-line chat loops
(basic_chatbot.py, chatbot_with_tools.py, chatbot_with_memory.py).
The node functions, edge wiring, chat loops and the stream printer are
embedded here directly from the source; the behaviour of the imported
framework primitives (tools_condition, ToolNode, add_messages,
MemorySaver) is not part of the repository, so those are modelled from
the specification, each marked in its doc comment.
-/

namespace LangGraphChatbot

/-- A structured tool invocation request emitted by the model:
name, argument payload and the id used to link the tool response back. -/
structure ToolCall where
  id : String
  name : String
  arguments : String
deriving DecidableEq, Repr

/-- Role of a chat message: user, assistant or tool-result. -/
inductive Role
  | user
  | assistant
  | tool
deriving DecidableEq, Repr

/-- A chat message: role, text content, zero or more pending tool calls
(assistant messages only) and, on tool-role messages, the id of the
originating tool call. -/
structure Message where
  role : Role
  content : String
  tool_calls : List ToolCall
  tool_call_id : Option String
deriving DecidableEq, Repr

/-- Nodes of the compiled graphs: the virtual START and END nodes and the
two real nodes added in chatbot_with_tools.py / chatbot_with_memory.py
(the basic graph has only the chatbot node). -/
inductive Node
  | START
  | chatbot
  | tools
  | END
deriving DecidableEq, Repr

/-- Modelled from the spec: langgraph.prebuilt.tools_condition is imported,
not part of this repository.  Per the spec, the turn controller routes to
the tools node if the latest assistant message has one or more pending
tool calls, and to END if it has none. -/
def tools_condition (msgs : List Message) : Node :=
  match msgs.getLast? with
  | some m => if m.tool_calls.isEmpty then Node.END else Node.tools
  | none => Node.END

/-- The edge wiring of the tool-enabled graph, from chatbot_with_tools.py
lines 57-68 (identical in chatbot_with_memory.py lines 57-67):
START goes to the chatbot node, the chatbot node has conditional edges
given by tools_condition with mapping tools to tools and END to END,
and the tools node has an unconditional edge back to the chatbot node. -/
def route : Node → List Message → Option Node
  | Node.START, _ => some Node.chatbot
  | Node.chatbot, msgs => some (tools_condition msgs)
  | Node.tools, _ => some Node.chatbot
  | Node.END, _ => none

/-- Modelled from the spec: langgraph.prebuilt.ToolNode is imported, not
part of this repository.  Per the spec, tool dispatch executes each
pending tool call of the given assistant message in request order and
appends a tool-role message carrying the result and the originating
tool_call_id.  The executor for the external search capability is a
parameter. -/
def toolResponses (exec : ToolCall → String) (m : Message) : List Message :=
  m.tool_calls.map fun c =>
    { role := Role.tool, content := exec c, tool_calls := [], tool_call_id := some c.id }

/-- States of the turn controller described by the spec. -/
inductive TurnState
  | AWAITING_MODEL
  | AWAITING_TOOLS
  | DONE
deriving DecidableEq, Repr

/-- One user turn of the compiled tool-enabled graph, driven by an oracle
list of successive model responses: the chatbot node appends the next
response, tools_condition routes either to END (turn over, final log
returned) or to the tools node, which appends the tool responses and
follows the fixed edge back to the chatbot node.  Returns none when the
oracle is exhausted while the model still requests tools. -/
def runTurn (exec : ToolCall → String) : List Message → List Message → Option (List Message)
  | _, [] => none
  | log, r :: rest =>
    match tools_condition (log ++ [r]) with
    | Node.tools => runTurn exec ((log ++ [r]) ++ toolResponses exec r) rest
    | _ => some (log ++ [r])

/-- Controller outcome of a turn: DONE when the run returned a final log,
still AWAITING_MODEL when the oracle ran out mid-turn. -/
def turnOutcome (exec : ToolCall → String) (log rs : List Message) : TurnState :=
  match runTurn exec log rs with
  | some _ => TurnState.DONE
  | none => TurnState.AWAITING_MODEL

/-- Modelled from the spec: langgraph.graph.message.add_messages is imported,
not part of this repository.  The State docstring in all three scripts says
the reducer appends messages to the list rather than overwriting them. -/
def add_messages (old new : List Message) : List Message :=
  old ++ new

/-- The message log obtained from an initial log after a sequence of node
updates, each folded in through the add_messages reducer declared on the
messages key of State. -/
def logAfter (init : List Message) (updates : List (List Message)) : List Message :=
  updates.foldl add_messages init

/-- Session keys are the opaque thread_id strings of chatbot_with_memory.py. -/
abbrev SessionKey := String

/-- Modelled from the spec: MemorySaver (langgraph.checkpoint.memory) is
imported, not part of this repository.  Per the spec, the session store is
a keyed mapping from session identifier to that session's message log. -/
def SessionStore : Type :=
  SessionKey → List Message

/-- Modelled from the spec: get(key) returns the stored log, or an empty
one if absent (the store is total, defaulting to the empty log). -/
def SessionStore.get (s : SessionStore) (k : SessionKey) : List Message :=
  s k

/-- Modelled from the spec: append(key, messages) extends the log stored
under that key and leaves every other key untouched. -/
def SessionStore.append (s : SessionStore) (k : SessionKey) (ms : List Message) : SessionStore :=
  fun k2 => if k2 = k then s k2 ++ ms else s k2

/-- The store before any conversation exists: every key maps to the empty log. -/
def emptyStore : SessionStore :=
  fun _ => []

/-- Whether a tool-role message answers one of the given pending tool
calls: its tool_call_id is present and matches the id of some call. -/
def matchesPending (pending : List ToolCall) (m : Message) : Bool :=
  match m.tool_call_id with
  | some i => pending.any fun c => c.id = i
  | none => false

/-- Scans a message log, tracking the pending tool calls of the nearest
preceding assistant message, and checks that every tool-role message
answers one of them. -/
def toolsOK : List Message → List ToolCall → Bool
  | [], _ => true
  | m :: rest, pending =>
    match m.role with
    | Role.tool => matchesPending pending m && toolsOK rest pending
    | Role.assistant => toolsOK rest m.tool_calls
    | Role.user => toolsOK rest pending

/-- The pending tool calls of the nearest preceding assistant message after
scanning a log, starting from the given pending list. -/
def pendingAfter : List Message → List ToolCall → List ToolCall
  | [], pending => pending
  | m :: rest, pending =>
    match m.role with
    | Role.assistant => pendingAfter rest m.tool_calls
    | _ => pendingAfter rest pending

/-- Message logs reachable by the compiled graphs: a first user message, a
further user message starting a new turn, the chatbot node appending one
assistant message, or the tools node appending the tool responses for the
assistant message that is currently last in the log (the node runs only on
the conditional edge taken right after the chatbot node). -/
inductive ReachableLog : List Message → Prop
  | start (u : Message) (hu : u.role = Role.user) : ReachableLog [u]
  | userTurn (log : List Message) (u : Message) (hu : u.role = Role.user)
      (h : ReachableLog log) : ReachableLog (log ++ [u])
  | modelStep (log : List Message) (m : Message) (hm : m.role = Role.assistant)
      (h : ReachableLog log) : ReachableLog (log ++ [m])
  | toolStep (log : List Message) (m : Message) (exec : ToolCall → String)
      (hlast : log.getLast? = some m) (hm : m.role = Role.assistant)
      (h : ReachableLog log) : ReachableLog (log ++ toolResponses exec m)

/-- The chatbot node of basic_chatbot.py lines 29-35: returns the singleton
list holding the one message produced by llm.invoke on the state's log. -/
def chatbot (llm : List Message → Message) (msgs : List Message) : List Message :=
  [llm msgs]

/-- The chatbot node of chatbot_with_tools.py lines 40-45: identical shape,
with the tool-bound model. -/
def chatbot_with_tools (llmT : List Message → Message) (msgs : List Message) : List Message :=
  [llmT msgs]

/-- Lowercasing as Python str.lower does on these ASCII inputs, mapped
character by character over the string. -/
def strLower (s : String) : String :=
  ⟨s.data.map Char.toLower⟩

/-- The exit tokens recognized by the chat loops. -/
def exitTokens : List String :=
  ["quit", "exit", "q"]

/-- The exit test of the chat loops: user_input.lower() in [quit, exit, q]. -/
def isExitInput (s : String) : Bool :=
  exitTokens.contains (strLower s)

/-- The hardcoded demonstration query of the fallback branch. -/
def demoQuery : String :=
  "What do you know about LangGraph?"

/-- Observable events of one run of the chat loop: printing the farewell
and breaking, invoking stream_graph_updates on an input, or that
invocation raising. -/
inductive LoopEvent
  | farewell
  | turnStart (input : String)
  | turnError (input : String)
deriving DecidableEq, Repr

/-- The except branch of the chat loop (basic_chatbot.py lines 92-97,
chatbot_with_tools.py lines 117-122): print the demonstration query as the
user line, run it through stream_graph_updates, and break; if that run
raises in turn, the exception propagates out of the loop. -/
def fallbackEvents (turnRaises : String → Bool) : List LoopEvent :=
  if turnRaises demoQuery then
    [LoopEvent.turnStart demoQuery, LoopEvent.turnError demoQuery]
  else
    [LoopEvent.turnStart demoQuery]

/-- The chat loop of basic_chatbot.py lines 85-97 (identical in
chatbot_with_tools.py lines 110-122), over a finite list of stdin lines;
an empty list means input() raises.  turnRaises tells which inputs make
stream_graph_updates raise (model or tool failure).  The whole loop body
sits in a try with a bare except, so a raising turn also lands in the
fallback branch. -/
def chatLoop (turnRaises : String → Bool) : List String → List LoopEvent
  | [] => fallbackEvents turnRaises
  | line :: rest =>
    if isExitInput line then
      [LoopEvent.farewell]
    else if turnRaises line then
      LoopEvent.turnStart line :: LoopEvent.turnError line :: fallbackEvents turnRaises
    else
      LoopEvent.turnStart line :: chatLoop turnRaises rest

/-- The chat loop under a model and tool that never fail. -/
def chatLoopOK : List String → List LoopEvent :=
  chatLoop fun _ => false

/-- One value of a stream event: the state dict a node returned, whose
messages key may be absent (none) or hold a list. -/
structure NodeUpdate where
  messages : Option (List Message)
deriving DecidableEq, Repr

/-- The body of the inner loop of stream_graph_updates: skip a None value,
skip a value whose messages key is absent or whose list is empty, and
otherwise print the content of the last message. -/
def printValue : Option NodeUpdate → List String
  | none => []
  | some u =>
    match u.messages with
    | none => []
    | some [] => []
    | some (m :: ms) =>
      ["Assistant: " ++ ((m :: ms).getLast (List.cons_ne_nil m ms)).content]

/-- The inner loop of stream_graph_updates over event.values(). -/
def printValues : List (Option NodeUpdate) → List String
  | [] => []
  | v :: rest => printValue v ++ printValues rest

/-- stream_graph_updates (basic_chatbot.py lines 68-77, chatbot_with_tools.py
lines 89-101): iterate the stream events, skip None events, and run the
inner loop on each event's values, collecting everything printed. -/
def stream_graph_updates : List (Option (List (Option NodeUpdate))) → List String
  | [] => []
  | none :: rest => stream_graph_updates rest
  | some vs :: rest => printValues vs ++ stream_graph_updates rest

/-! Sample data used by the witness theorems. -/

/-- A concrete search tool call. -/
def sampleCall : ToolCall :=
  { id := "call_1", name := "tavily_search", arguments := "langgraph" }

/-- A concrete user message. -/
def sampleUser : Message :=
  { role := Role.user, content := "Hi there! My name is Will.", tool_calls := [], tool_call_id := none }

/-- A concrete assistant message that requests one tool call. -/
def sampleAssistantTools : Message :=
  { role := Role.assistant, content := "", tool_calls := [sampleCall], tool_call_id := none }

/-- A concrete assistant message with final content and no tool calls. -/
def sampleAssistantFinal : Message :=
  { role := Role.assistant, content := "LangGraph is a graph orchestration library.",
    tool_calls := [], tool_call_id := none }

/-! Helper lemmas. -/

/-- Folding one more update through add_messages appends it to the log. -/
theorem logAfter_append_one (init : List Message) (updates : List (List Message))
    (u : List Message) :
    logAfter init (updates ++ [u]) = logAfter init updates ++ u := by
  simp [logAfter, List.foldl_append, add_messages]

/-- The initial log is a prefix of the log after any sequence of updates. -/
theorem logAfter_extends_init (init : List Message) (updates : List (List Message)) :
    init <+: logAfter init updates := by
  induction updates generalizing init with
  | nil => exact List.prefix_rfl
  | cons v us ih =>
    have h1 : init <+: add_messages init v := List.prefix_append init v
    have h2 : logAfter init (v :: us) = logAfter (add_messages init v) us := by
      simp [logAfter]
    rw [h2]
    exact h1.trans (ih (add_messages init v))

/-! Claim theorems. -/

/-- C1: after the chatbot node leaves an assistant message last in the log,
the conditional edge routes to the tools node iff that message carries one
or more tool calls and to END iff it carries none, and the edge out of the
tools node always returns to the chatbot node. -/
theorem chatbot_conditional_routing (msgs : List Message) (m : Message)
    (h : msgs.getLast? = some m) :
    (route Node.chatbot msgs = some Node.tools ↔ m.tool_calls ≠ []) ∧
    (route Node.chatbot msgs = some Node.END ↔ m.tool_calls = []) ∧
    (∀ ms, route Node.tools ms = some Node.chatbot) := by
  refine ⟨?_, ?_, fun ms => rfl⟩ <;>
  · simp only [route, tools_condition, h]
    cases hc : m.tool_calls <;> simp

/-- Witness for C1 at a concrete log ending in a tool-calling assistant message. -/
theorem chatbot_conditional_routing_witness :
    [sampleUser, sampleAssistantTools].getLast? = some sampleAssistantTools ∧
    (route Node.chatbot [sampleUser, sampleAssistantTools] = some Node.tools ↔
      sampleAssistantTools.tool_calls ≠ []) :=
  ⟨rfl, (chatbot_conditional_routing [sampleUser, sampleAssistantTools]
    sampleAssistantTools rfl).1⟩

/-- C2: whenever the oracle of model responses contains a message with no
tool calls, the turn reaches the terminal DONE state with a final log; the
graph never loops forever between the chatbot and tools nodes under that
hypothesis. -/
theorem turn_controller_terminates (exec : ToolCall → String) (log rs : List Message)
    (h : ∃ r ∈ rs, r.tool_calls = []) :
    turnOutcome exec log rs = TurnState.DONE ∧
    ∃ finalLog, runTurn exec log rs = some finalLog := by
  have key : ∀ rs2, (∃ r ∈ rs2, r.tool_calls = []) →
      ∀ lg, ∃ fl, runTurn exec lg rs2 = some fl := by
    intro rs2
    induction rs2 with
    | nil => intro hh; simp at hh
    | cons r rest ih =>
      intro hh lg
      cases hc : r.tool_calls with
      | nil =>
        refine ⟨lg ++ [r], ?_⟩
        simp [runTurn, tools_condition, List.getLast?_concat, hc]
      | cons c cs =>
        have h' : ∃ x ∈ rest, x.tool_calls = [] := by
          rcases hh with ⟨x, hx, hx2⟩
          rcases List.mem_cons.mp hx with rfl | hx'
          · rw [hc] at hx2; cases hx2
          · exact ⟨x, hx', hx2⟩
        rcases ih h' ((lg ++ [r]) ++ toolResponses exec r) with ⟨fl, hfl⟩
        refine ⟨fl, ?_⟩
        simpa [runTurn, tools_condition, List.getLast?_concat, hc] using hfl
  rcases key rs h log with ⟨fl, hfl⟩
  exact ⟨by simp [turnOutcome, hfl], fl, hfl⟩

/-- Witness for C2: a turn whose second model response has no tool calls. -/
theorem turn_controller_terminates_witness :
    (∃ r ∈ [sampleAssistantTools, sampleAssistantFinal], r.tool_calls = []) ∧
    turnOutcome (fun _ => "result") [sampleUser]
      [sampleAssistantTools, sampleAssistantFinal] = TurnState.DONE :=
  ⟨by decide, (turn_controller_terminates (fun _ => "result") [sampleUser]
    [sampleAssistantTools, sampleAssistantFinal] (by decide)).1⟩

/-- C3: the message log is append-only: the initial log is a prefix of the
log after any updates, one more update keeps the old log as an unmodified
prefix, and the length never decreases. -/
theorem message_log_append_only (init : List Message) (updates : List (List Message))
    (u : List Message) :
    init <+: logAfter init updates ∧
    logAfter init updates <+: logAfter init (updates ++ [u]) ∧
    (logAfter init updates).length ≤ (logAfter init (updates ++ [u])).length := by
  have hstep : logAfter init updates <+: logAfter init (updates ++ [u]) := by
    rw [logAfter_append_one]
    exact List.prefix_append _ _
  exact ⟨logAfter_extends_init init updates, hstep, hstep.length_le⟩

/-- C4: messages appended under one session key are never observable under
a distinct key: the other key's log is unchanged, and from the empty store
the other key still reads the empty log. -/
theorem session_isolation (s : SessionStore) (k1 k2 : SessionKey) (ms : List Message)
    (h : k1 ≠ k2) :
    (s.append k1 ms).get k2 = s.get k2 ∧
    (emptyStore.append k1 ms).get k2 = [] := by
  constructor
  · simp [SessionStore.append, SessionStore.get, Ne.symm h]
  · simp [SessionStore.append, SessionStore.get, emptyStore, Ne.symm h]

/-- Witness for C4 at the thread ids 1 and 2 of chatbot_with_memory.py. -/
theorem session_isolation_witness :
    ("1" : SessionKey) ≠ "2" ∧
    (emptyStore.append "1" [sampleUser]).get "2" = [] :=
  ⟨by decide, (session_isolation emptyStore "1" "2" [sampleUser] (by decide)).2⟩

/-- Splitting a toolsOK scan at an append point. -/
theorem toolsOK_append (xs ys : List Message) (p : List ToolCall) :
    toolsOK (xs ++ ys) p = (toolsOK xs p && toolsOK ys (pendingAfter xs p)) := by
  induction xs generalizing p with
  | nil => simp [toolsOK, pendingAfter]
  | cons m rest ih =>
    cases hr : m.role <;>
      simp [toolsOK, pendingAfter, hr, ih, Bool.and_assoc]

/-- After scanning a log whose last message is an assistant message, the
pending tool calls are exactly that message's tool calls. -/
theorem pendingAfter_last_assistant (log : List Message) (m : Message)
    (hlast : log.getLast? = some m) (hm : m.role = Role.assistant) (p : List ToolCall) :
    pendingAfter log p = m.tool_calls := by
  rcases List.eq_nil_or_concat log with rfl | ⟨xs, a, rfl⟩
  · simp at hlast
  · rw [List.concat_eq_append] at hlast ⊢
    rw [List.getLast?_concat] at hlast
    have ha : a = m := Option.some.inj hlast
    have hsplit : ∀ (q : List ToolCall), pendingAfter (xs ++ [a]) q =
        pendingAfter [a] (pendingAfter xs q) := by
      intro q
      induction xs generalizing q with
      | nil => rfl
      | cons x rest ih =>
        cases hx : x.role <;> simp [pendingAfter, hx, ih]
    rw [hsplit, ha]
    simp [pendingAfter, hm]

/-- The tool responses produced for calls that all occur in the pending
list pass the toolsOK check against that pending list. -/
theorem toolsOK_map_responses (exec : ToolCall → String) (cs pending : List ToolCall)
    (h : ∀ c ∈ cs, ∃ p ∈ pending, p.id = c.id) :
    toolsOK (cs.map fun c =>
      { role := Role.tool, content := exec c, tool_calls := [],
        tool_call_id := some c.id }) pending = true := by
  induction cs with
  | nil => rfl
  | cons c cs ih =>
    simp only [List.map_cons, toolsOK, matchesPending, Bool.and_eq_true]
    refine ⟨?_, ih fun x hx => h x (List.mem_cons_of_mem c hx)⟩
    rcases h c (List.mem_cons_self c cs) with ⟨p, hp, hpid⟩
    simp only [List.any_eq_true, decide_eq_true_eq]
    exact ⟨p, hp, hpid⟩

/-- C5: in every reachable message log, every tool-role message answers a
tool call of the nearest preceding assistant message: the toolsOK scan
starting with no pending calls succeeds. -/
theorem reachable_log_tool_ids_matched (log : List Message) (h : ReachableLog log) :
    toolsOK log [] = true := by
  induction h with
  | start u hu => simp [toolsOK, hu]
  | userTurn log u hu h ih => rw [toolsOK_append]; simp [toolsOK, hu, ih]
  | modelStep log m hm h ih => rw [toolsOK_append]; simp [toolsOK, hm, ih]
  | toolStep log m exec hlast hm h ih =>
    rw [toolsOK_append, pendingAfter_last_assistant log m hlast hm, ih, Bool.true_and]
    exact toolsOK_map_responses exec m.tool_calls m.tool_calls fun c hc => ⟨c, hc, rfl⟩

/-- Witness for C5: the log of one tool round of the sample conversation. -/
theorem reachable_log_tool_ids_matched_witness :
    toolsOK ([sampleUser, sampleAssistantTools] ++
      toolResponses (fun _ => "results") sampleAssistantTools) [] = true :=
  reachable_log_tool_ids_matched _
    (ReachableLog.toolStep [sampleUser, sampleAssistantTools] sampleAssistantTools
      (fun _ => "results") rfl rfl
      (ReachableLog.modelStep [sampleUser] sampleAssistantTools rfl
        (ReachableLog.start sampleUser rfl)))

/-- C6: each invocation of a chatbot node returns exactly one new message
(the single llm.invoke result wrapped in a list), never zero, never more. -/
theorem chatbot_single_message (llm llmT : List Message → Message) (msgs : List Message) :
    (chatbot llm msgs).length = 1 ∧ (chatbot_with_tools llmT msgs).length = 1 :=
  ⟨rfl, rfl⟩

/-- C7: under a never-failing model, a line that is an exit token (after
lowercasing, matching quit, exit or q) makes the loop print the farewell
and stop without running a turn, and any other line is run as a user turn
after which the loop continues on the remaining input. -/
theorem chat_loop_exit_tokens (line : String) (rest : List String) :
    chatLoopOK (line :: rest) =
      (if isExitInput line then [LoopEvent.farewell]
       else LoopEvent.turnStart line :: chatLoopOK rest) ∧
    (isExitInput line = true ↔
      (strLower line = "quit" ∨ strLower line = "exit" ∨ strLower line = "q")) := by
  constructor
  · by_cases h : isExitInput line <;> simp [chatLoopOK, chatLoop, h]
  · simp [isExitInput, exitTokens]

/-- C8: a failing model turn is not terminal: the bare except of the chat
loop catches the failure and then invokes the model once more on the
hardcoded demonstration query before breaking. -/
theorem chat_loop_failure_runs_demo_turn :
    chatLoop (fun s => s == "hello") ["hello"] =
      [LoopEvent.turnStart "hello", LoopEvent.turnError "hello",
       LoopEvent.turnStart demoQuery] := by
  decide

/-- C9: exhausting the input stream does run the demonstration query once
and exit, but that fallback-and-exit path is also taken when a turn fails
while further input remains unread. -/
theorem chat_loop_fallback_conditions :
    chatLoop (fun _ => false) [] = [LoopEvent.turnStart demoQuery] ∧
    chatLoop (fun s => s == "oops") ["oops", "next"] =
      [LoopEvent.turnStart "oops", LoopEvent.turnError "oops",
       LoopEvent.turnStart demoQuery] := by
  decide

/-- A string is printed for a single stream value exactly when that value
is present and its messages key holds a nonempty list, and the string is
the content of the last message. -/
theorem mem_printValue (s : String) (v : Option NodeUpdate) :
    s ∈ printValue v ↔ ∃ u, v = some u ∧ ∃ l c, u.messages = some l ∧
      l.getLast? = some c ∧ s = "Assistant: " ++ c.content := by
  cases v with
  | none => simp [printValue]
  | some u =>
    cases hm : u.messages with
    | none => simp [printValue, hm]
    | some l =>
      cases l with
      | nil => simp [printValue, hm]
      | cons m ms =>
        simp only [printValue, hm, List.mem_singleton, Option.some.injEq]
        constructor
        · rintro rfl
          exact ⟨u, rfl, m :: ms, (m :: ms).getLast (List.cons_ne_nil m ms), hm,
            List.getLast?_eq_getLast_of_ne_nil (List.cons_ne_nil m ms), rfl⟩
        · rintro ⟨u2, rfl, l, c, hl, hc, rfl⟩
          rw [hm] at hl
          obtain rfl : l = m :: ms := (Option.some.inj hl).symm
          rw [List.getLast?_eq_getLast_of_ne_nil (List.cons_ne_nil m ms)] at hc
          obtain rfl : c = (m :: ms).getLast (List.cons_ne_nil m ms) :=
            (Option.some.inj hc).symm
          rfl

/-- Membership in the output of the inner loop over event.values(). -/
theorem mem_printValues (s : String) (vs : List (Option NodeUpdate)) :
    s ∈ printValues vs ↔ ∃ v ∈ vs, s ∈ printValue v := by
  induction vs with
  | nil => simp [printValues]
  | cons v rest ih => simp [printValues, ih]

/-- C10: stream_graph_updates is total and guarded: a None event changes
nothing, and a string is printed exactly when some non-None event holds a
non-None value whose messages key is present with a nonempty list, the
string being the content of that list's last message — so the printer
never reads a missing key or the last element of an empty list. -/
theorem stream_graph_updates_safe (events : List (Option (List (Option NodeUpdate))))
    (s : String) :
    (s ∈ stream_graph_updates events ↔
      ∃ vs, some vs ∈ events ∧ ∃ u, some u ∈ vs ∧ ∃ l c, u.messages = some l ∧
        l.getLast? = some c ∧ s = "Assistant: " ++ c.content) ∧
    stream_graph_updates (none :: events) = stream_graph_updates events := by
  refine ⟨?_, rfl⟩
  induction events with
  | nil => simp [stream_graph_updates]
  | cons e rest ih =>
    cases e with
    | none => simp [stream_graph_updates, ih]
    | some vs =>
      simp only [stream_graph_updates, List.mem_append, ih, mem_printValues,
        mem_printValue, List.mem_cons, Option.some.injEq]
      constructor
      · rintro (⟨v, hv, u, rfl, hrest⟩ | ⟨vs2, hvs2, hrest⟩)
        · exact ⟨vs, Or.inl rfl, u, hv, hrest⟩
        · exact ⟨vs2, Or.inr hvs2, hrest⟩
      · rintro ⟨vs2, hvs2 | hvs2, u, hu, hrest⟩
        · exact Or.inl ⟨some u, hvs2 ▸ hu, u, rfl, hrest⟩
        · exact Or.inr ⟨vs2, hvs2, u, hu, hrest⟩

end LangGraphChatbot
